import Mathlib

/-!
Verification of the signalling service core (auth.rs, room.rs, poll.rs, db.rs)
against its natural-language specification.

Shallow embedding conventions:
* Timestamps (`web_time::SystemTime`) are nanoseconds since the Unix epoch,
  as a `Nat`; `Duration::from_secs s` is `s * NANOS`.
* `usize` subtraction in `is_done` wraps modulo `2 ^ 64` exactly as a release
  build does; the wrap is written out explicitly.
* In the source every session operation unwraps `data: Option<AuthData>`
  with `expect("invalid state")`; the embedding represents live records, so
  `data` is carried directly (the claims under study all presuppose a
  present body).  Operations that can panic for other reasons return
  `Option`.
* The flat string-to-string metadata map of the store is embedded as a
  function `String → Option String`.
-/

/-- Nanoseconds since the Unix epoch (`web_time::SystemTime`). -/
abbrev Time := Nat

/-- Nanoseconds in one second (`Duration::from_secs`). -/
def NANOS : Nat := 1000000000

/-- `Duration::from_secs`. -/
def fromSecs (s : Nat) : Time := s * NANOS

-- Constants from auth.rs.
def GRACE_PERIOD : Nat := 20

def MAX_CONNECTION : Nat := 3600

def FIRST_POLL : Nat := 1

def POLL : Nat := 10

def CONNECT : Nat := 5

def FAST_POLL : Nat := 1

/-- poll.rs: `type IceCandidate = (String, Option<String>, Option<u16>)`. -/
abbrev IceCandidate := String × Option String × Option Nat

/-- poll.rs: the `Signal` enum. -/
inductive Signal where
  | SetSDP (sdp : String)
  | AddCandidate (ice : IceCandidate)
  | JoinRoom (room : String)
  | ConnectAt (t : Time)
  | NextPoll (t : Time)
deriving DecidableEq, Repr

/-- poll.rs: `Signal::can_send`. -/
def Signal.can_send : Signal → Bool
  | .SetSDP _ => true
  | .AddCandidate _ => true
  | .JoinRoom _ => false
  | .ConnectAt _ => false
  | .NextPoll _ => false

/-- Tag test used by the `/poll` handler (`matches!(s, Signal::JoinRoom(_))`). -/
def Signal.is_join_room : Signal → Bool
  | .JoinRoom _ => true
  | _ => false

/-- Tag test for `NextPoll`, used to state the batch-shape properties. -/
def Signal.is_next_poll : Signal → Bool
  | .NextPoll _ => true
  | _ => false

/-- Tag test for `ConnectAt`. -/
def Signal.is_connect_at : Signal → Bool
  | .ConnectAt _ => true
  | _ => false

/-- auth.rs: the persisted session body `AuthData`. -/
structure AuthData where
  sent_sdp : Bool
  ice_done : Bool
  queue : List Signal
  read : Nat
  connect_at : Option Time
  sent_join : Bool
  read_connect : Bool
deriving DecidableEq, Repr

/-- `#[derive(Default)]` for `AuthData`. -/
def AuthData.default : AuthData :=
  { sent_sdp := false, ice_done := false, queue := [], read := 0,
    connect_at := none, sent_join := false, read_connect := false }

/-- auth.rs: the persisted session metadata `AuthMetadata`. -/
structure AuthMetadata where
  kill_at : Time
  next_poll : Time
  room : Option String
  peer : Option String
deriving DecidableEq, Repr

/-- auth.rs: `impl Default for AuthMetadata` (relative to the current clock). -/
def AuthMetadata.default (now : Time) : AuthMetadata :=
  { kill_at := now + fromSecs MAX_CONNECTION,
    next_poll := now + fromSecs FIRST_POLL,
    room := none, peer := none }

/-- db.rs: a live session record `Auth = Data<AuthData, AuthMetadata, AuthInfo>`.
The `service` field is not present in the session source.
Modelled from the spec: `join_room` calls a `get_service()` accessor on the
session which the session source does not define; the spec directs
implementers to carry a client-populated service tag on the session, so the
embedding stores it as an optional field read by `get_service`. -/
structure Auth where
  modified : Bool
  key : String
  data : AuthData
  meta : AuthMetadata
  service : Option String
deriving DecidableEq, Repr

/-- db.rs: `Data::create` for sessions — fresh key, default body and metadata,
`modified = true`. -/
def Auth.create (key : String) (now : Time) : Auth :=
  { modified := true, key := key, data := AuthData.default,
    meta := AuthMetadata.default now, service := none }

/-- Modelled from the spec: the `get_service()` accessor missing from the
session source; returns the session's client-populated service tag. -/
def Auth.get_service (a : Auth) : Option String := a.service

/-- room.rs: the persisted room body `RoomData`. -/
structure RoomData where
  service : String
  offer : String
  answer : Option String
deriving DecidableEq, Repr

/-- `#[derive(Default)]` for `RoomData`. -/
def RoomData.default : RoomData :=
  { service := "", offer := "", answer := none }

/-- db.rs: a live room record `Room = Data<RoomData, RoomMetadata, RoomInfo>`
(`RoomMetadata` is empty and omitted). -/
structure Room where
  modified : Bool
  key : String
  data : RoomData
deriving DecidableEq, Repr

/-- db.rs: `Data::create` for rooms (the generated fresh key is a parameter). -/
def Room.create (key : String) : Room :=
  { modified := true, key := key, data := RoomData.default }

/-- db.rs: `get_bucket_key` for sessions (`AuthInfo::PREFIX = "auth"`). -/
def authBucketKey (k : String) : String := "auth:" ++ k

/-- db.rs: `get_bucket_key` for rooms (`RoomInfo::PREFIX = "room"`). -/
def roomBucketKey (k : String) : String := "room:" ++ k

/-- room.rs: `Room::get_peer`. -/
def Room.get_peer (r : Room) (peer : Auth) : Option String :=
  if peer.key = r.data.offer then r.data.answer
  else some r.data.offer

/-- room.rs: `Room::join_room`.  Returns `none` where the source panics
(`get_service().expect("invalid state")`); otherwise returns the source's
boolean result together with the updated room and session. -/
def Room.join_room (r : Room) (user : Auth) : Option (Bool × Room × Auth) :=
  match user.get_service with
  | none => none
  | some service =>
    let is_offer : Bool := r.data.offer = ""
    let is_answer : Bool := r.data.answer = none
    if ¬is_offer ∧ ¬is_answer then some (false, r, user)
    else if is_offer then
      let r := { r with data := { r.data with service := service, offer := user.key },
                        modified := true }
      some (true, r, { user with meta := { user.meta with room := some r.key },
                                 modified := true })
    else if service ≠ r.data.service then some (false, r, user)
    else
      let r := { r with data := { r.data with answer := some user.key },
                        modified := true }
      some (true, r, { user with meta := { user.meta with room := some r.key },
                                 modified := true })

/-- auth.rs: `Auth::set_room`. -/
def Auth.set_room (a : Auth) (room : Room) : Auth :=
  { a with meta := { a.meta with room := some room.key }, modified := true }

/-- auth.rs: `Auth::set_peer`. -/
def Auth.set_peer (a : Auth) (peer : Option String) : Auth :=
  { a with meta := { a.meta with peer := peer }, modified := true }

/-- auth.rs: `Auth::poll` (pacing; `now` is the current clock). -/
def Auth.poll (a : Auth) (now : Time) : Auth :=
  let secs := if a.meta.peer.isSome then FAST_POLL else POLL
  { a with meta := { a.meta with next_poll := now + fromSecs secs }, modified := true }

/-- Body of the `for signal in signals` loop of `Auth::send_signal`. -/
def Auth.send_one (a : Auth) (s : Signal) : Auth :=
  if ¬s.can_send then a
  else
    match s with
    | .SetSDP _ =>
      if a.data.sent_sdp then a
      else { a with modified := true,
                    data := { a.data with sent_sdp := true,
                                          queue := a.data.queue ++ [s] } }
    | .AddCandidate ice =>
      if a.data.ice_done then a
      else if ice.1 = "" then
        { a with modified := true,
                 data := { a.data with ice_done := true,
                                       queue := a.data.queue ++ [s] } }
      else
        { a with modified := true,
                 data := { a.data with queue := a.data.queue ++ [s] } }
    | other =>
      { a with modified := true,
               data := { a.data with queue := a.data.queue ++ [other] } }

/-- auth.rs: `Auth::send_signal`. -/
def Auth.send_signal (a : Auth) (signals : List Signal) : Auth :=
  signals.foldl Auth.send_one a

/-- auth.rs: `Auth::try_connect`. -/
def Auth.try_connect (a : Auth) (peer : Auth) : Auth :=
  if a.data.connect_at.isSome then a
  else
    match peer.data.connect_at with
    | some t =>
      { a with data := { a.data with connect_at := some t, read_connect := false },
               modified := true }
    | none =>
      if ¬a.data.sent_sdp ∨ ¬peer.data.sent_sdp then a
      else if ¬a.data.ice_done ∧ ¬peer.data.ice_done then a
      else
        { a with data := { a.data with
                             connect_at := some (peer.meta.next_poll + fromSecs CONNECT),
                             read_connect := false },
                 modified := true }

/-- auth.rs: `Auth::read_signals` — returns the updated session and the
slice `peer.queue[read..]` (`get(read..)` yields the empty slice when `read`
is out of range, exactly as `List.drop`). -/
def Auth.read_signals (a : Auth) (peer : Auth) : Auth × List Signal :=
  let a := a.try_connect peer
  let queue := peer.data.queue
  let signals := queue.drop a.data.read
  let a := { a with data := { a.data with read := queue.length } }
  (a, signals)

/-- auth.rs: `Auth::pull_signals` — returns the updated session and the
batch handed to the client. -/
def Auth.pull_signals (a : Auth) (peer : Option Auth) : Auth × List Signal :=
  let step1 : Auth × List Signal :=
    match peer with
    | some p => a.read_signals p
    | none => (a, [])
  let a := step1.1
  let signals := step1.2
  let step2 : Auth × List Signal :=
    match a.meta.room with
    | some room =>
      if ¬a.data.sent_join then
        ({ a with data := { a.data with sent_join := true } },
         signals ++ [Signal.JoinRoom room])
      else (a, signals)
    | none => (a, signals)
  let a := step2.1
  let signals := step2.2
  let step3 : Auth × List Signal :=
    match a.data.connect_at with
    | some t =>
      if ¬a.data.read_connect then
        ({ a with data := { a.data with read_connect := true } },
         signals ++ [Signal.ConnectAt t])
      else (a, signals)
    | none => (a, signals)
  let a := step3.1
  let signals := step3.2
  (a, signals ++ [Signal.NextPoll a.meta.next_poll])

/-- auth.rs: `Auth::is_done`.  `peer.queue.len() - self.read` is `usize`
subtraction, which wraps modulo `2 ^ 64` in a release build; the wrap is
explicit here. -/
def Auth.is_done (a : Auth) (peer : Auth) : Bool :=
  if a.data.connect_at.isNone then false
  else if ¬a.data.ice_done ∨ ¬peer.data.ice_done then false
  else if (peer.data.queue.length + 2 ^ 64 - a.data.read) % 2 ^ 64 > 0 then false
  else true

/-- auth.rs: `Auth::is_alive` (`now` is the current clock). -/
def Auth.is_alive (a : Auth) (now : Time) : Bool :=
  now < min a.meta.kill_at (a.meta.next_poll + fromSecs GRACE_PERIOD)

/-- auth.rs: `Auth::get_keys_to_kill`. -/
def Auth.get_keys_to_kill (a : Auth) (now : Time) : List String :=
  if a.is_alive now then []
  else
    [authBucketKey a.key]
      ++ (match a.meta.peer with
          | some k => [authBucketKey k]
          | none => [])
      ++ (match a.meta.room with
          | some k => [roomBucketKey k]
          | none => [])

/-- poll.rs: the set of keys deleted by one `cleanup` sweep over a listed
population of session records (the `HashSet` only deduplicates; membership
is what matters). -/
def cleanup_deleted (population : List Auth) (now : Time) : List String :=
  (population.map (fun a => a.get_keys_to_kill now)).flatten

/-! ### Decimal codec

Models Rust's `u64::to_string` (most-significant digit first) and
`str::parse::<u64>` (digits only, nonempty, fails above `u64::MAX`),
used by the metadata conversions in auth.rs. -/

/-- One decimal digit as a character. -/
def digitChar (d : Nat) : Char := Char.ofNat (48 + d)

/-- Decimal digits of a number, most significant first (`u64::to_string`). -/
def natDigits (n : Nat) : List Char :=
  if _h : n < 10 then [digitChar n]
  else natDigits (n / 10) ++ [digitChar (n % 10)]
decreasing_by
  exact Nat.div_lt_self (by omega) (by omega)

/-- `u64::to_string`. -/
def showNat (n : Nat) : String := ⟨natDigits n⟩

/-- Accumulating digit scan of `str::parse::<u64>`. -/
def parseNatCore : Nat → List Char → Option Nat
  | acc, [] => some acc
  | acc, c :: cs =>
    if c.isDigit then parseNatCore (acc * 10 + (c.toNat - 48)) cs else none

/-- `str::parse::<u64>`: digits only, nonempty, value below `2 ^ 64`. -/
def parseU64 (s : String) : Option Nat :=
  if s.data.isEmpty then none
  else
    match parseNatCore 0 s.data with
    | some v => if v < 2 ^ 64 then some v else none
    | none => none

/-- auth.rs: `From<AuthMetadata> for HashMap<String, String>`: the four
inserted entries (`as_secs` is division by `NANOS`; absent options become
empty strings). -/
def AuthMetadata.to_map (v : AuthMetadata) : String → Option String :=
  fun k =>
    if k = "kill_at" then some (showNat (v.kill_at / NANOS))
    else if k = "next_poll" then some (showNat (v.next_poll / NANOS))
    else if k = "room" then some (v.room.getD "")
    else if k = "peer" then some (v.peer.getD "")
    else none

/-- auth.rs: `From<HashMap<String, String>> for AuthMetadata`; `none` models
the panics (`expect("missing kill_at")`, `parse().unwrap()`). -/
def AuthMetadata.from_map (m : String → Option String) : Option AuthMetadata := do
  let ka ← (m "kill_at").filter (fun v => v ≠ "")
  let ka ← parseU64 ka
  let np ← (m "next_poll").filter (fun v => v ≠ "")
  let np ← parseU64 np
  some { kill_at := fromSecs ka, next_poll := fromSecs np,
         room := (m "room").filter (fun v => v ≠ ""),
         peer := (m "peer").filter (fun v => v ≠ "") }

/-! ### The `/poll` handler (poll.rs)

The object store is embedded as two partial maps from unprefixed keys to
stored records; `Data::load` stamps the key and clears the dirty bit.  A
handler run returns the HTTP response together with the list of bucket keys
it `put` (a `write` is a `put` only when the record is `modified`). -/

/-- The object store contents, keyed by unprefixed record keys. -/
structure Store where
  auths : String → Option Auth
  rooms : String → Option Room

/-- `Auth::load`: stored record with `modified = false` and the key stamped. -/
def Store.loadAuth (st : Store) (k : String) : Option Auth :=
  (st.auths k).map fun a => { a with key := k, modified := false }

/-- `Room::load`. -/
def Store.loadRoom (st : Store) (k : String) : Option Room :=
  (st.rooms k).map fun r => { r with key := k, modified := false }

/-- An HTTP response of the `/poll` handler.  `fatal` stands for the panics
(`expect`) that abort the handler. -/
inductive PResponse where
  | ok (signals : List Signal)
  | err (msg : String) (code : Nat)
  | fatal
deriving DecidableEq, Repr

/-- A handler run: the response plus the bucket keys written by `put`. -/
structure PollOutcome where
  response : PResponse
  puts : List String
deriving DecidableEq, Repr

/-- poll.rs lines 98-101: the tail shared by both room branches —
`room.get_peer`, `room.write` (a `put` only if modified), `user.set_peer`. -/
def after_room (room : Room) (user : Auth) : Option String × Auth × List String :=
  let peer := room.get_peer user
  let puts := if room.modified then [roomBucketKey room.key] else []
  (peer, user.set_peer peer, puts)

/-- poll.rs lines 69-103: resolution of the peer token.  `error` carries the
early-returned outcome; `ok` carries the peer token, the (possibly updated)
user and the keys put so far. -/
def resolve_peer (st : Store) (user : Auth) (signals : List Signal)
    (freshRoomKey : String) :
    Except PollOutcome (Option String × Auth × List String) :=
  match user.meta.peer with
  | some p => .ok (some p, user, [])
  | none =>
    match user.meta.room with
    | some code =>
      match st.loadRoom code with
      | none => .error ⟨.err "Room expired." 400, []⟩
      | some room => .ok (after_room room user)
    | none =>
      let loaded : Except PollOutcome (Option Room) :=
        match signals.find? Signal.is_join_room with
        | some (Signal.JoinRoom code) => .ok (st.loadRoom code)
        | none => .ok (some (Room.create freshRoomKey))
        | some _ => .error ⟨.err "server logic error." 500, []⟩
      match loaded with
      | .error e => .error e
      | .ok none => .error ⟨.err "Room not found." 404, []⟩
      | .ok (some room) =>
        match room.join_room user with
        | none => .error ⟨.fatal, []⟩
        | some (false, _, _) => .error ⟨.err "Room is full." 400, []⟩
        | some (true, room, user) => .ok (after_room room user)

/-- poll.rs lines 115-120: `poll()`, `send_signal`, `pull_signals`,
`user.write` (a `put` only if modified), reply with the batch. -/
def finish_poll (user : Auth) (peer : Option Auth) (signals : List Signal)
    (now : Time) (puts : List String) : PollOutcome :=
  let user := user.poll now
  let user := user.send_signal signals
  let res := user.pull_signals peer
  ⟨.ok res.2, puts ++ (if res.1.modified then [authBucketKey res.1.key] else [])⟩

/-- poll.rs: the `/poll` handler.  `freshRoomKey` stands for the key drawn by
`Room::create` when a room is created. -/
def poll_handler (st : Store) (token : Option String) (signals : List Signal)
    (now : Time) (freshRoomKey : String) : PollOutcome :=
  match token with
  | none => ⟨.err "Missing token." 403, []⟩
  | some token =>
    if signals.any (fun s => ¬s.is_join_room ∧ ¬s.can_send) then
      ⟨.err "Invalid signals: can't send." 400, []⟩
    else
      match st.loadAuth token with
      | none => ⟨.err "Invalid token." 403, []⟩
      | some user =>
        match resolve_peer st user signals freshRoomKey with
        | .error e => e
        | .ok (peerTok, user, puts) =>
          let peer := peerTok.bind st.loadAuth
          match peer with
          | some p =>
            if user.is_done p then ⟨.err "Connection done." 400, puts⟩
            else finish_poll user (some p) signals now puts
          | none => finish_poll user none signals now puts

/-! ### Trace model

A pair of sessions evolving under the core operations; this is the sequential
view of the system the lifetime properties quantify over.  Operations on one
side take the other side as peer.  `runOut` additionally collects the batches
returned by `pull_signals` on side `A` together with the session's
`next_poll` at the moment of the call. -/

/-- One core operation applied to a session (with its peer at hand). -/
inductive SOp where
  | send (batch : List Signal)
  | doPoll (now : Time)
  | tryConn
  | readSig
  | pullPeer
  | pullNone
  | setRoom (r : Room)
  | setPeer (p : Option String)

/-- Apply one operation to session `x` with peer `peer`; returns the updated
session and, for the `pull_signals` operations, the batch it returned. -/
def applyOp (x peer : Auth) : SOp → Auth × Option (List Signal)
  | .send batch => (x.send_signal batch, none)
  | .doPoll now => (x.poll now, none)
  | .tryConn => (x.try_connect peer, none)
  | .readSig => ((x.read_signals peer).1, none)
  | .pullPeer =>
    let res := x.pull_signals (some peer)
    (res.1, some res.2)
  | .pullNone =>
    let res := x.pull_signals none
    (res.1, some res.2)
  | .setRoom r => (x.set_room r, none)
  | .setPeer p => (x.set_peer p, none)

/-- A pair of sessions (the two sides of one signalling exchange). -/
structure Pair where
  a : Auth
  b : Auth

/-- A fresh pair: both sessions as `Data::create` made them. -/
def Pair.init (ka : String) (ta : Time) (kb : String) (tb : Time) : Pair :=
  ⟨Auth.create ka ta, Auth.create kb tb⟩

/-- One step of the pair: the operation acts on side `A` when `side` is
true, on side `B` otherwise. -/
def stepPair (p : Pair) (side : Bool) (op : SOp) : Pair × Option (List Signal) :=
  if side then
    let res := applyOp p.a p.b op
    (⟨res.1, p.b⟩, res.2)
  else
    let res := applyOp p.b p.a op
    (⟨p.a, res.1⟩, res.2)

/-- Run a list of steps, collecting the batches `pull_signals` returned on
side `A`, each paired with side `A`'s `next_poll` at the call. -/
def runOut (p : Pair) : List (Bool × SOp) → Pair × List (List Signal × Time)
  | [] => (p, [])
  | (side, op) :: ops =>
    let res := stepPair p side op
    let emitted : List (List Signal × Time) :=
      if side then
        match res.2 with
        | some batch => [(batch, p.a.meta.next_poll)]
        | none => []
      else []
    let rest := runOut res.1 ops
    (rest.1, emitted ++ rest.2)

/-- The pair after running a list of steps. -/
def runPair (p : Pair) (ops : List (Bool × SOp)) : Pair := (runOut p ops).1

/-- Batches returned to side `A`'s client. -/
def outputsA (p : Pair) (ops : List (Bool × SOp)) : List (List Signal × Time) :=
  (runOut p ops).2

/-- Number of `JoinRoom` signals across a list of returned batches. -/
def joinCount (outs : List (List Signal × Time)) : Nat :=
  (outs.map (fun o => o.1.countP (fun s => s.is_join_room))).sum

/-- Number of `ConnectAt` signals across a list of returned batches. -/
def connCount (outs : List (List Signal × Time)) : Nat :=
  (outs.map (fun o => o.1.countP (fun s => s.is_connect_at))).sum

/-- Session-local invariant: the queue holds only client-sendable signals,
and `read_connect` is only ever true once `connect_at` is set. -/
def SInv (x : Auth) : Prop :=
  (∀ s ∈ x.data.queue, s.can_send = true) ∧
  (x.data.read_connect = true → x.data.connect_at.isSome)

/-- Pair invariant: both session invariants plus read-cursor bounds. -/
def PairInv (p : Pair) : Prop :=
  SInv p.a ∧ SInv p.b ∧
  p.a.data.read ≤ p.b.data.queue.length ∧
  p.b.data.read ≤ p.a.data.queue.length

/-- The peer-independent tail of `pull_signals` (steps 2-4), factored out for
proofs; `pull_signals_eq` shows the factoring is definitional. -/
def pull_emit (a : Auth) (signals : List Signal) : Auth × List Signal :=
  let step2 : Auth × List Signal :=
    match a.meta.room with
    | some room =>
      if ¬a.data.sent_join then
        ({ a with data := { a.data with sent_join := true } },
         signals ++ [Signal.JoinRoom room])
      else (a, signals)
    | none => (a, signals)
  let a := step2.1
  let signals := step2.2
  let step3 : Auth × List Signal :=
    match a.data.connect_at with
    | some t =>
      if ¬a.data.read_connect then
        ({ a with data := { a.data with read_connect := true } },
         signals ++ [Signal.ConnectAt t])
      else (a, signals)
    | none => (a, signals)
  let a := step3.1
  let signals := step3.2
  (a, signals ++ [Signal.NextPoll a.meta.next_poll])

/-- Field-wise monotonicity targets of claim C4. -/
def Mono (x y : Auth) : Prop :=
  (x.data.sent_sdp = true → y.data.sent_sdp = true) ∧
  (x.data.ice_done = true → y.data.ice_done = true) ∧
  (x.data.sent_join = true → y.data.sent_join = true) ∧
  (x.data.read_connect = true → y.data.read_connect = true) ∧
  (∀ t, x.data.connect_at = some t → y.data.connect_at = some t)

/-- A returned batch is some `NextPoll`-free list followed by exactly one
final `NextPoll` carrying the recorded `next_poll`. -/
def GoodBatch (o : List Signal × Time) : Prop :=
  ∃ l', o.1 = l' ++ [Signal.NextPoll o.2] ∧ l'.countP Signal.is_next_poll = 0

def tcS1 : Auth :=
  { Auth.create "A" 0 with
    data := { AuthData.default with connect_at := some (fromSecs 5) } }

def tcP2 : Auth :=
  { Auth.create "B" 0 with
    data := { AuthData.default with connect_at := some (fromSecs 7) } }

def tcS3 : Auth :=
  { Auth.create "A" 0 with
    data := { AuthData.default with sent_sdp := true, ice_done := true } }

def tcP3 : Auth :=
  { Auth.create "B" 3 with
    data := { AuthData.default with sent_sdp := true } }

/-- A session that stopped polling: its grace window ended at 20 s. -/
def cexDead : Auth :=
  { modified := false, key := "A", data := AuthData.default,
    meta := { kill_at := fromSecs 3600, next_poll := 0,
              room := some "R", peer := some "B" },
    service := none }

/-- Its paired session, which polled recently and is still alive at 50 s. -/
def cexAlive : Auth :=
  { modified := false, key := "B", data := AuthData.default,
    meta := { kill_at := fromSecs 3600, next_poll := fromSecs 100,
              room := some "R", peer := some "A" },
    service := none }

def c7Room : Room :=
  { modified := false, key := "R",
    data := { service := "svc1", offer := "X", answer := none } }

def c7FullRoom : Room :=
  { modified := false, key := "F",
    data := { service := "svc1", offer := "X", answer := some "Y" } }

def c7User : Auth :=
  { modified := false, key := "T", data := AuthData.default,
    meta := { kill_at := fromSecs 3600, next_poll := fromSecs 1,
              room := none, peer := none },
    service := some "svc2" }

def c7Store : Store :=
  { auths := fun t => if t = "T" then some c7User else none,
    rooms := fun c =>
      if c = "R" then some c7Room
      else if c = "F" then some c7FullRoom
      else none }

def c4Ops : List (Bool × SOp) :=
  [(false, SOp.send [Signal.SetSDP "b"]),
   (true, SOp.send [Signal.SetSDP "a", Signal.AddCandidate ("", none, none)]),
   (true, SOp.setRoom (Room.create "R")),
   (true, SOp.tryConn),
   (true, SOp.pullNone)]

lemma digitChar_isDigit {d : Nat} (h : d < 10) : (digitChar d).isDigit = true := by
  interval_cases d <;> decide

lemma digitChar_toNat {d : Nat} (h : d < 10) : (digitChar d).toNat - 48 = d := by
  interval_cases d <;> decide

lemma natDigits_ne_nil (n : Nat) : natDigits n ≠ [] := by
  rw [natDigits]
  split <;> simp

lemma parseNatCore_append (l₁ l₂ : List Char) (acc : Nat) :
    parseNatCore acc (l₁ ++ l₂)
      = (parseNatCore acc l₁).bind (fun v => parseNatCore v l₂) := by
  induction l₁ generalizing acc with
  | nil => simp [parseNatCore]
  | cons c cs ih =>
    simp only [List.cons_append, parseNatCore]
    split
    · exact ih _
    · simp

lemma parseNatCore_natDigits (n : Nat) :
    ∀ acc : Nat, parseNatCore acc (natDigits n)
      = some (acc * 10 ^ (natDigits n).length + n) := by
  induction n using Nat.strong_induction_on with
  | _ n ih =>
    intro acc
    rw [natDigits]
    split
    · next h =>
      simp [parseNatCore, digitChar_isDigit h, digitChar_toNat h]
    · next h =>
      have hd : n / 10 < n := Nat.div_lt_self (by omega) (by omega)
      have h10 : n % 10 < 10 := Nat.mod_lt _ (by omega)
      rw [parseNatCore_append, ih _ hd acc]
      simp only [Option.some_bind]
      rw [show parseNatCore (acc * 10 ^ (natDigits (n / 10)).length + n / 10)
            [digitChar (n % 10)]
          = some ((acc * 10 ^ (natDigits (n / 10)).length + n / 10) * 10 + (n % 10)) from by
        simp [parseNatCore, digitChar_isDigit h10, digitChar_toNat h10]]
      congr 1
      have hlen : (natDigits (n / 10) ++ [digitChar (n % 10)]).length
          = (natDigits (n / 10)).length + 1 := by simp
      rw [hlen, pow_succ]
      have hdm : n / 10 * 10 + n % 10 = n := by omega
      calc (acc * 10 ^ (natDigits (n / 10)).length + n / 10) * 10 + n % 10
          = acc * (10 ^ (natDigits (n / 10)).length * 10) + (n / 10 * 10 + n % 10) := by
            ring
        _ = acc * (10 ^ (natDigits (n / 10)).length * 10) + n := by rw [hdm]

lemma parseU64_showNat {n : Nat} (h : n < 2 ^ 64) : parseU64 (showNat n) = some n := by
  have hne := natDigits_ne_nil n
  have hp := parseNatCore_natDigits n 0
  simp only [parseU64, showNat]
  rw [if_neg (by simpa using hne)]
  rw [hp]
  simp only [Nat.zero_mul, Nat.zero_add]
  rw [if_pos h]

lemma showNat_ne_empty (n : Nat) : showNat n ≠ "" := by
  have := natDigits_ne_nil n
  simp only [showNat]
  intro h
  exact this (congrArg String.data h)

/-! ### Effect lemmas for the core operations -/
lemma try_connect_cases (x peer : Auth) :
    x.try_connect peer = x ∨
    (x.data.connect_at = none ∧ ∃ t,
      x.try_connect peer =
        { x with modified := true,
                 data := { x.data with connect_at := some t, read_connect := false } }) := by
  unfold Auth.try_connect
  rcases hc : x.data.connect_at with _ | t₀
  · rw [if_neg (by simp)]
    rcases hp : peer.data.connect_at with _ | t₁
    · simp only [hp]
      split_ifs with h₁ h₂
      · exact Or.inl rfl
      · exact Or.inl rfl
      · exact Or.inr ⟨trivial, _, rfl⟩
    · simp only [hp]
      exact Or.inr ⟨trivial, _, rfl⟩
  · rw [if_pos (by simp)]
    exact Or.inl rfl

lemma try_connect_meta (x peer : Auth) : (x.try_connect peer).meta = x.meta := by
  rcases try_connect_cases x peer with h | ⟨_, _, h⟩ <;> rw [h]

lemma try_connect_queue (x peer : Auth) :
    (x.try_connect peer).data.queue = x.data.queue := by
  rcases try_connect_cases x peer with h | ⟨_, _, h⟩ <;> rw [h]

lemma try_connect_read (x peer : Auth) :
    (x.try_connect peer).data.read = x.data.read := by
  rcases try_connect_cases x peer with h | ⟨_, _, h⟩ <;> rw [h]

lemma try_connect_sent_sdp (x peer : Auth) :
    (x.try_connect peer).data.sent_sdp = x.data.sent_sdp := by
  rcases try_connect_cases x peer with h | ⟨_, _, h⟩ <;> rw [h]

lemma try_connect_ice_done (x peer : Auth) :
    (x.try_connect peer).data.ice_done = x.data.ice_done := by
  rcases try_connect_cases x peer with h | ⟨_, _, h⟩ <;> rw [h]

lemma try_connect_sent_join (x peer : Auth) :
    (x.try_connect peer).data.sent_join = x.data.sent_join := by
  rcases try_connect_cases x peer with h | ⟨_, _, h⟩ <;> rw [h]

lemma try_connect_key (x peer : Auth) : (x.try_connect peer).key = x.key := by
  rcases try_connect_cases x peer with h | ⟨_, _, h⟩ <;> rw [h]

/-- `try_connect` never clears `connect_at`. -/
lemma try_connect_connect_at_mono (x peer : Auth) (t : Time)
    (h : x.data.connect_at = some t) :
    (x.try_connect peer).data.connect_at = some t := by
  rcases try_connect_cases x peer with he | ⟨hn, _, _⟩
  · rw [he, h]
  · rw [hn] at h
    cases h

/-- Under the session invariant, `try_connect` leaves a set `read_connect`
flag alone (it only clears the flag when `connect_at` was absent). -/
lemma try_connect_of_read_connect (x peer : Auth) (hS : SInv x)
    (h : x.data.read_connect = true) : x.try_connect peer = x := by
  rcases try_connect_cases x peer with he | ⟨hn, _, _⟩
  · exact he
  · have := hS.2 h
    rw [hn] at this
    cases this

lemma SInv_try_connect (x peer : Auth) (hS : SInv x) : SInv (x.try_connect peer) := by
  rcases try_connect_cases x peer with he | ⟨hn, t, he⟩ <;> rw [he]
  · exact hS
  · exact ⟨hS.1, by simp⟩

lemma send_one_spec (x : Auth) (s : Signal) :
    ((x.send_one s).data.queue = x.data.queue ∨
      (s.can_send = true ∧ (x.send_one s).data.queue = x.data.queue ++ [s])) ∧
    (x.send_one s).data.read = x.data.read ∧
    (x.send_one s).data.connect_at = x.data.connect_at ∧
    (x.send_one s).data.read_connect = x.data.read_connect ∧
    (x.send_one s).data.sent_join = x.data.sent_join ∧
    (x.data.sent_sdp = true → (x.send_one s).data.sent_sdp = true) ∧
    (x.data.ice_done = true → (x.send_one s).data.ice_done = true) ∧
    (x.send_one s).meta = x.meta ∧ (x.send_one s).key = x.key := by
  unfold Auth.send_one
  cases s <;>
    simp only [Signal.can_send, Bool.not_true, Bool.not_false] <;>
    split_ifs <;>
    simp_all

lemma send_signal_spec (l : List Signal) (x : Auth) :
    ∃ extra : List Signal,
      (x.send_signal l).data.queue = x.data.queue ++ extra ∧
      (∀ s ∈ extra, s.can_send = true) ∧
      (x.send_signal l).data.read = x.data.read ∧
      (x.send_signal l).data.connect_at = x.data.connect_at ∧
      (x.send_signal l).data.read_connect = x.data.read_connect ∧
      (x.send_signal l).data.sent_join = x.data.sent_join ∧
      (x.data.sent_sdp = true → (x.send_signal l).data.sent_sdp = true) ∧
      (x.data.ice_done = true → (x.send_signal l).data.ice_done = true) ∧
      (x.send_signal l).meta = x.meta ∧ (x.send_signal l).key = x.key := by
  induction l generalizing x with
  | nil => exact ⟨[], by simp [Auth.send_signal]⟩
  | cons s rest ih =>
    have hstep := send_one_spec x s
    obtain ⟨extra, hq, hpure, hread, hca, hrc, hsj, hsdp, hice, hmeta, hkey⟩ :=
      ih (x.send_one s)
    have hss : x.send_signal (s :: rest) = (x.send_one s).send_signal rest := rfl
    rcases hstep.1 with hq1 | ⟨hcs, hq1⟩
    · refine ⟨extra, ?_⟩
      rw [hss]
      refine ⟨by rw [hq, hq1], hpure, ?_⟩
      rw [hread, hca, hrc, hsj, hmeta, hkey]
      refine ⟨hstep.2.1, hstep.2.2.1, hstep.2.2.2.1, hstep.2.2.2.2.1,
        fun h => hsdp (hstep.2.2.2.2.2.1 h), fun h => hice (hstep.2.2.2.2.2.2.1 h),
        hstep.2.2.2.2.2.2.2.1, hstep.2.2.2.2.2.2.2.2⟩
    · refine ⟨s :: extra, ?_⟩
      rw [hss]
      constructor
      · rw [hq, hq1, List.append_assoc, List.singleton_append]
      refine ⟨?_, ?_⟩
      · intro u hu
        rcases List.mem_cons.mp hu with rfl | hu
        · exact hcs
        · exact hpure u hu
      rw [hread, hca, hrc, hsj, hmeta, hkey]
      refine ⟨hstep.2.1, hstep.2.2.1, hstep.2.2.2.1, hstep.2.2.2.2.1,
        fun h => hsdp (hstep.2.2.2.2.2.1 h), fun h => hice (hstep.2.2.2.2.2.2.1 h),
        hstep.2.2.2.2.2.2.2.1, hstep.2.2.2.2.2.2.2.2⟩

lemma read_signals_fst (x p : Auth) :
    (x.read_signals p).1 =
      { x.try_connect p with
        data := { (x.try_connect p).data with read := p.data.queue.length } } := rfl

lemma read_signals_snd (x p : Auth) :
    (x.read_signals p).2 = p.data.queue.drop (x.try_connect p).data.read := rfl

lemma pull_signals_eq (x : Auth) (po : Option Auth) :
    x.pull_signals po =
      match po with
      | some p => pull_emit (x.read_signals p).1 (x.read_signals p).2
      | none => pull_emit x [] := by
  cases po <;> rfl

/-- Closed form of `pull_emit`: the one-shot flags are or-ed with the
availability of their payloads, and the batch is the input signals followed
by the optional `JoinRoom`, the optional `ConnectAt`, and the final
`NextPoll`. -/
lemma pull_emit_eq (a : Auth) (sigs : List Signal) :
    pull_emit a sigs =
      ({ a with data := { a.data with
           sent_join := a.data.sent_join || a.meta.room.isSome,
           read_connect := a.data.read_connect || a.data.connect_at.isSome } },
       sigs
         ++ (match a.meta.room with
             | some r => if a.data.sent_join then [] else [Signal.JoinRoom r]
             | none => [])
         ++ (match a.data.connect_at with
             | some t => if a.data.read_connect then [] else [Signal.ConnectAt t]
             | none => [])
         ++ [Signal.NextPoll a.meta.next_poll]) := by
  obtain ⟨m, k, d, me, sv⟩ := a
  obtain ⟨sdp, ice, q, rd, ca, sj, rc⟩ := d
  obtain ⟨ka, np, ro, pe⟩ := me
  cases ro <;> cases sj <;> cases ca <;> cases rc <;> simp [pull_emit]

/-- Under the session invariant, neither `try_connect` branch changes
`read_connect` (the clearing branch requires the flag to be false already). -/
lemma try_connect_read_connect (x peer : Auth) (hS : SInv x) :
    (x.try_connect peer).data.read_connect = x.data.read_connect := by
  rcases try_connect_cases x peer with he | ⟨hn, t, he⟩ <;> rw [he]
  cases hrc : x.data.read_connect
  · rfl
  · have := hS.2 hrc
    rw [hn] at this
    cases this

lemma Mono.refl (x : Auth) : Mono x x :=
  ⟨fun h => h, fun h => h, fun h => h, fun h => h, fun _ h => h⟩

lemma Mono.trans {x y z : Auth} (h₁ : Mono x y) (h₂ : Mono y z) : Mono x z :=
  ⟨fun h => h₂.1 (h₁.1 h), fun h => h₂.2.1 (h₁.2.1 h),
   fun h => h₂.2.2.1 (h₁.2.2.1 h), fun h => h₂.2.2.2.1 (h₁.2.2.2.1 h),
   fun t h => h₂.2.2.2.2 t (h₁.2.2.2.2 t h)⟩

lemma mono_try_connect (x peer : Auth) (hS : SInv x) : Mono x (x.try_connect peer) := by
  rcases try_connect_cases x peer with he | ⟨hn, t, he⟩ <;> rw [he]
  · exact Mono.refl x
  · refine ⟨fun h => h, fun h => h, fun h => h, ?_, ?_⟩
    · intro hrc
      have := hS.2 hrc
      rw [hn] at this
      cases this
    · intro u hu
      rw [hn] at hu
      cases hu

lemma mono_pull_emit (a : Auth) (sigs : List Signal) : Mono a (pull_emit a sigs).1 := by
  rw [pull_emit_eq]
  refine ⟨fun h => h, fun h => h, ?_, ?_, fun t h => h⟩ <;> intro h <;> simp [h]

lemma mono_read_signals (x peer : Auth) (hS : SInv x) :
    Mono x (x.read_signals peer).1 := by
  rw [read_signals_fst]
  exact Mono.trans (mono_try_connect x peer hS)
    ⟨fun h => h, fun h => h, fun h => h, fun h => h, fun t h => h⟩

lemma mono_applyOp (x peer : Auth) (op : SOp) (hS : SInv x) :
    Mono x (applyOp x peer op).1 := by
  cases op with
  | send batch =>
    show Mono x (x.send_signal batch)
    obtain ⟨extra, hq, hpure, hread, hca, hrc, hsj, hsdp, hice, hmeta, hkey⟩ :=
      send_signal_spec batch x
    exact ⟨hsdp, hice, fun h => by rw [hsj]; exact h,
      fun h => by rw [hrc]; exact h, fun t h => by rw [hca]; exact h⟩
  | doPoll now => exact ⟨fun h => h, fun h => h, fun h => h, fun h => h, fun t h => h⟩
  | tryConn => exact mono_try_connect x peer hS
  | readSig => exact mono_read_signals x peer hS
  | pullPeer =>
    show Mono x (x.pull_signals (some peer)).1
    rw [pull_signals_eq]
    exact Mono.trans (mono_read_signals x peer hS) (mono_pull_emit _ _)
  | pullNone =>
    show Mono x (x.pull_signals none).1
    rw [pull_signals_eq]
    exact mono_pull_emit _ _
  | setRoom r => exact ⟨fun h => h, fun h => h, fun h => h, fun h => h, fun t h => h⟩
  | setPeer p => exact ⟨fun h => h, fun h => h, fun h => h, fun h => h, fun t h => h⟩

lemma SInv_read_signals (x peer : Auth) (hS : SInv x) :
    SInv (x.read_signals peer).1 := by
  rw [read_signals_fst]
  have h := SInv_try_connect x peer hS
  exact ⟨h.1, h.2⟩

lemma SInv_pull_emit (a : Auth) (sigs : List Signal) (hS : SInv a) :
    SInv (pull_emit a sigs).1 := by
  rw [pull_emit_eq]
  refine ⟨hS.1, ?_⟩
  intro h
  have h' : (a.data.read_connect || a.data.connect_at.isSome) = true := h
  cases hrc : a.data.read_connect
  · rw [hrc] at h'
    have h₂ : a.data.connect_at.isSome = true := by simpa using h'
    exact h₂
  · exact hS.2 hrc

lemma SInv_applyOp (x peer : Auth) (op : SOp) (hS : SInv x) :
    SInv (applyOp x peer op).1 := by
  cases op with
  | send batch =>
    show SInv (x.send_signal batch)
    obtain ⟨extra, hq, hpure, hread, hca, hrc, hsj, hsdp, hice, hmeta, hkey⟩ :=
      send_signal_spec batch x
    constructor
    · intro s hs
      rw [hq] at hs
      rcases List.mem_append.mp hs with hs | hs
      · exact hS.1 s hs
      · exact hpure s hs
    · intro h
      rw [hrc] at h
      rw [hca]
      exact hS.2 h
  | doPoll now => exact hS
  | tryConn => exact SInv_try_connect x peer hS
  | readSig => exact SInv_read_signals x peer hS
  | pullPeer =>
    show SInv (x.pull_signals (some peer)).1
    rw [pull_signals_eq]
    exact SInv_pull_emit _ _ (SInv_read_signals x peer hS)
  | pullNone =>
    show SInv (x.pull_signals none).1
    rw [pull_signals_eq]
    exact SInv_pull_emit _ _ hS
  | setRoom r => exact hS
  | setPeer p => exact hS

lemma applyOp_queue (x peer : Auth) (op : SOp) :
    ∃ extra, (applyOp x peer op).1.data.queue = x.data.queue ++ extra := by
  cases op with
  | send batch =>
    obtain ⟨extra, hq, -⟩ := send_signal_spec batch x
    exact ⟨extra, hq⟩
  | doPoll now =>
    refine ⟨[], ?_⟩
    show (x.poll now).data.queue = _
    simp [Auth.poll]
  | tryConn =>
    refine ⟨[], ?_⟩
    show (x.try_connect peer).data.queue = _
    rw [try_connect_queue]
    simp
  | readSig =>
    refine ⟨[], ?_⟩
    show (x.read_signals peer).1.data.queue = _
    rw [read_signals_fst]
    show (x.try_connect peer).data.queue = _
    rw [try_connect_queue]
    simp
  | pullPeer =>
    refine ⟨[], ?_⟩
    show (x.pull_signals (some peer)).1.data.queue = _
    rw [pull_signals_eq]
    show (pull_emit (x.read_signals peer).1 (x.read_signals peer).2).1.data.queue = _
    rw [pull_emit_eq]
    show (x.read_signals peer).1.data.queue = _
    rw [read_signals_fst]
    show (x.try_connect peer).data.queue = _
    rw [try_connect_queue]
    simp
  | pullNone =>
    refine ⟨[], ?_⟩
    show (x.pull_signals none).1.data.queue = _
    rw [pull_signals_eq]
    show (pull_emit x []).1.data.queue = _
    rw [pull_emit_eq]
    simp
  | setRoom r =>
    refine ⟨[], ?_⟩
    show (x.set_room r).data.queue = _
    simp [Auth.set_room]
  | setPeer p =>
    refine ⟨[], ?_⟩
    show (x.set_peer p).data.queue = _
    simp [Auth.set_peer]

lemma applyOp_read (x peer : Auth) (op : SOp) :
    (applyOp x peer op).1.data.read = x.data.read ∨
    (applyOp x peer op).1.data.read = peer.data.queue.length := by
  cases op with
  | send batch =>
    obtain ⟨extra, hq, hpure, hread, -⟩ := send_signal_spec batch x
    exact Or.inl hread
  | doPoll now => exact Or.inl rfl
  | tryConn => exact Or.inl (try_connect_read x peer)
  | readSig =>
    refine Or.inr ?_
    show (x.read_signals peer).1.data.read = _
    rw [read_signals_fst]
  | pullPeer =>
    refine Or.inr ?_
    show (x.pull_signals (some peer)).1.data.read = _
    rw [pull_signals_eq]
    show (pull_emit (x.read_signals peer).1 (x.read_signals peer).2).1.data.read = _
    rw [pull_emit_eq]
    show (x.read_signals peer).1.data.read = _
    rw [read_signals_fst]
  | pullNone =>
    refine Or.inl ?_
    show (x.pull_signals none).1.data.read = _
    rw [pull_signals_eq]
    show (pull_emit x []).1.data.read = _
    rw [pull_emit_eq]
  | setRoom r => exact Or.inl rfl
  | setPeer p => exact Or.inl rfl

lemma PairInv_init (ka : String) (ta : Time) (kb : String) (tb : Time) :
    PairInv (Pair.init ka ta kb tb) := by
  refine ⟨⟨?_, ?_⟩, ⟨?_, ?_⟩, ?_, ?_⟩ <;>
    simp [Pair.init, Auth.create, AuthData.default, SInv]

lemma PairInv_step (p : Pair) (side : Bool) (op : SOp) (h : PairInv p) :
    PairInv (stepPair p side op).1 := by
  obtain ⟨hSa, hSb, hra, hrb⟩ := h
  cases side
  · show PairInv ⟨p.a, (applyOp p.b p.a op).1⟩
    obtain ⟨extra, hq⟩ := applyOp_queue p.b p.a op
    refine ⟨hSa, SInv_applyOp _ _ _ hSb, ?_, ?_⟩
    · rw [hq, List.length_append]
      exact le_trans hra (Nat.le_add_right _ _)
    · rcases applyOp_read p.b p.a op with h' | h'
      · rw [h']
        exact hrb
      · rw [h']
  · show PairInv ⟨(applyOp p.a p.b op).1, p.b⟩
    obtain ⟨extra, hq⟩ := applyOp_queue p.a p.b op
    refine ⟨SInv_applyOp _ _ _ hSa, hSb, ?_, ?_⟩
    · rcases applyOp_read p.a p.b op with h' | h'
      · rw [h']
        exact hra
      · rw [h']
    · rw [hq, List.length_append]
      exact le_trans hrb (Nat.le_add_right _ _)

lemma runOut_cons (p : Pair) (side : Bool) (op : SOp) (ops : List (Bool × SOp)) :
    runOut p ((side, op) :: ops)
      = ((runOut (stepPair p side op).1 ops).1,
         (if side then
            match (stepPair p side op).2 with
            | some batch => [(batch, p.a.meta.next_poll)]
            | none => []
          else [])
          ++ (runOut (stepPair p side op).1 ops).2) := rfl

lemma PairInv_runOut (ops : List (Bool × SOp)) (p : Pair) (h : PairInv p) :
    PairInv (runOut p ops).1 := by
  induction ops generalizing p with
  | nil => exact h
  | cons o ops ih =>
    obtain ⟨side, op⟩ := o
    show PairInv (runOut (stepPair p side op).1 ops).1
    exact ih _ (PairInv_step p side op h)

lemma mono_runOut (ops : List (Bool × SOp)) (p : Pair) (h : PairInv p) :
    Mono p.a (runOut p ops).1.a := by
  induction ops generalizing p with
  | nil => exact Mono.refl p.a
  | cons o ops ih =>
    obtain ⟨side, op⟩ := o
    show Mono p.a (runOut (stepPair p side op).1 ops).1.a
    refine Mono.trans ?_ (ih _ (PairInv_step p side op h))
    cases side
    · exact Mono.refl p.a
    · exact mono_applyOp p.a p.b op h.1

lemma read_mono_runOut (ops : List (Bool × SOp)) (p : Pair) (h : PairInv p) :
    p.a.data.read ≤ (runOut p ops).1.a.data.read := by
  induction ops generalizing p with
  | nil => exact le_refl _
  | cons o ops ih =>
    obtain ⟨side, op⟩ := o
    show p.a.data.read ≤ (runOut (stepPair p side op).1 ops).1.a.data.read
    refine le_trans ?_ (ih _ (PairInv_step p side op h))
    cases side
    · exact le_refl _
    · show p.a.data.read ≤ (applyOp p.a p.b op).1.data.read
      rcases applyOp_read p.a p.b op with h' | h'
      · rw [h']
      · rw [h']
        exact h.2.2.1

lemma can_send_not_join {s : Signal} (h : s.can_send = true) :
    s.is_join_room = false := by
  cases s <;> simp_all [Signal.can_send, Signal.is_join_room]

lemma can_send_not_conn {s : Signal} (h : s.can_send = true) :
    s.is_connect_at = false := by
  cases s <;> simp_all [Signal.can_send, Signal.is_connect_at]

lemma can_send_not_next {s : Signal} (h : s.can_send = true) :
    s.is_next_poll = false := by
  cases s <;> simp_all [Signal.can_send, Signal.is_next_poll]

lemma countP_zero_of_pure (l : List Signal) (q : Signal → Bool)
    (h : ∀ s ∈ l, s.can_send = true)
    (hq : ∀ s : Signal, s.can_send = true → q s = false) :
    l.countP q = 0 :=
  List.countP_eq_zero.mpr fun s hs => by simp [hq s (h s hs)]

lemma read_signals_meta (x p : Auth) : (x.read_signals p).1.meta = x.meta := by
  rw [read_signals_fst]
  exact try_connect_meta x p

lemma read_signals_sent_join (x p : Auth) :
    (x.read_signals p).1.data.sent_join = x.data.sent_join := by
  rw [read_signals_fst]
  exact try_connect_sent_join x p

lemma read_signals_read_connect (x p : Auth) (hS : SInv x) :
    (x.read_signals p).1.data.read_connect = x.data.read_connect := by
  rw [read_signals_fst]
  exact try_connect_read_connect x p hS

lemma read_signals_pure (x p : Auth)
    (hp : ∀ s ∈ p.data.queue, s.can_send = true) :
    ∀ s ∈ (x.read_signals p).2, s.can_send = true := by
  rw [read_signals_snd]
  intro s hs
  exact hp s (List.drop_subset _ _ hs)

lemma pull_emit_counts (a : Auth) (sigs : List Signal)
    (hj : sigs.countP Signal.is_join_room = 0)
    (hc : sigs.countP Signal.is_connect_at = 0)
    (hn : sigs.countP Signal.is_next_poll = 0) :
    ((pull_emit a sigs).2.countP Signal.is_join_room
        = if a.data.sent_join = false ∧ (pull_emit a sigs).1.data.sent_join = true
          then 1 else 0) ∧
    ((pull_emit a sigs).2.countP Signal.is_connect_at
        = if a.data.read_connect = false ∧ (pull_emit a sigs).1.data.read_connect = true
          then 1 else 0) ∧
    GoodBatch ((pull_emit a sigs).2, a.meta.next_poll) := by
  rw [pull_emit_eq]
  rcases hr : a.meta.room with _ | r <;>
    cases hsj : a.data.sent_join <;>
    rcases hca : a.data.connect_at with _ | t <;>
    cases hrc : a.data.read_connect <;>
    · refine ⟨?_, ?_, ?_⟩
      · simp [hr, hsj, hca, hrc, List.countP_append, List.countP_cons, hj,
          Signal.is_join_room]
      · simp [hr, hsj, hca, hrc, List.countP_append, List.countP_cons, hc,
          Signal.is_connect_at]
      · refine ⟨sigs
          ++ (match a.meta.room with
              | some r => if a.data.sent_join then [] else [Signal.JoinRoom r]
              | none => [])
          ++ (match a.data.connect_at with
              | some t => if a.data.read_connect then [] else [Signal.ConnectAt t]
              | none => []), by simp [hr, hsj, hca, hrc], ?_⟩
        simp [hr, hsj, hca, hrc, List.countP_append, List.countP_cons, hn,
          Signal.is_next_poll]

lemma pull_batch_spec (x : Auth) (po : Option Auth) (hS : SInv x)
    (hpeer : ∀ p, po = some p → ∀ s ∈ p.data.queue, s.can_send = true) :
    ((x.pull_signals po).2.countP Signal.is_join_room
        = if x.data.sent_join = false ∧ (x.pull_signals po).1.data.sent_join = true
          then 1 else 0) ∧
    ((x.pull_signals po).2.countP Signal.is_connect_at
        = if x.data.read_connect = false ∧ (x.pull_signals po).1.data.read_connect = true
          then 1 else 0) ∧
    GoodBatch ((x.pull_signals po).2, x.meta.next_poll) := by
  cases po with
  | none =>
    rw [pull_signals_eq]
    exact pull_emit_counts x [] (by simp) (by simp) (by simp)
  | some peer =>
    rw [pull_signals_eq]
    have hpure := read_signals_pure x peer (hpeer peer rfl)
    have h :=
      pull_emit_counts (x.read_signals peer).1 (x.read_signals peer).2
        (countP_zero_of_pure _ _ hpure fun s hcs => can_send_not_join hcs)
        (countP_zero_of_pure _ _ hpure fun s hcs => can_send_not_conn hcs)
        (countP_zero_of_pure _ _ hpure fun s hcs => can_send_not_next hcs)
    rw [read_signals_sent_join, read_signals_read_connect x peer hS,
      read_signals_meta] at h
    exact h

/-- One step on side `A`: either nothing is emitted and the one-shot flags do
not change, or a batch is emitted whose `JoinRoom` / `ConnectAt` counts are
tied to the flag transitions and whose shape ends in the `NextPoll`. -/
lemma stepA_spec (p : Pair) (op : SOp) (h : PairInv p) :
    ((stepPair p true op).2 = none ∧
      (stepPair p true op).1.a.data.sent_join = p.a.data.sent_join ∧
      (stepPair p true op).1.a.data.read_connect = p.a.data.read_connect) ∨
    (∃ batch, (stepPair p true op).2 = some batch ∧
      (batch.countP Signal.is_join_room
        = if p.a.data.sent_join = false ∧ (stepPair p true op).1.a.data.sent_join = true
          then 1 else 0) ∧
      (batch.countP Signal.is_connect_at
        = if p.a.data.read_connect = false
             ∧ (stepPair p true op).1.a.data.read_connect = true
          then 1 else 0) ∧
      GoodBatch (batch, p.a.meta.next_poll)) := by
  have hSa := h.1
  have hSb := h.2.1
  cases op with
  | send batch =>
    obtain ⟨extra, hq, hpure, hread, hca, hrc, hsj, -⟩ := send_signal_spec batch p.a
    exact Or.inl ⟨rfl, hsj, hrc⟩
  | doPoll now => exact Or.inl ⟨rfl, rfl, rfl⟩
  | tryConn =>
    exact Or.inl ⟨rfl, try_connect_sent_join p.a p.b,
      try_connect_read_connect p.a p.b hSa⟩
  | readSig =>
    exact Or.inl ⟨rfl, read_signals_sent_join p.a p.b,
      read_signals_read_connect p.a p.b hSa⟩
  | pullPeer =>
    refine Or.inr ⟨(p.a.pull_signals (some p.b)).2, rfl, ?_⟩
    have := pull_batch_spec p.a (some p.b) hSa
      (fun q hq => by cases hq; exact hSb.1)
    exact this
  | pullNone =>
    refine Or.inr ⟨(p.a.pull_signals none).2, rfl, ?_⟩
    have := pull_batch_spec p.a none hSa (fun q hq => by cases hq)
    exact this
  | setRoom r => exact Or.inl ⟨rfl, rfl, rfl⟩
  | setPeer pr => exact Or.inl ⟨rfl, rfl, rfl⟩

lemma joinCount_append (l₁ l₂ : List (List Signal × Time)) :
    joinCount (l₁ ++ l₂) = joinCount l₁ + joinCount l₂ := by
  simp [joinCount]

lemma connCount_append (l₁ l₂ : List (List Signal × Time)) :
    connCount (l₁ ++ l₂) = connCount l₁ + connCount l₂ := by
  simp [connCount]

lemma joinCount_bound (ops : List (Bool × SOp)) (p : Pair) (h : PairInv p) :
    joinCount (outputsA p ops) ≤ if p.a.data.sent_join = true then 0 else 1 := by
  induction ops generalizing p with
  | nil =>
    have : joinCount (outputsA p []) = 0 := by simp [outputsA, runOut, joinCount]
    rw [this]
    split <;> omega
  | cons o ops ih =>
    obtain ⟨side, op⟩ := o
    have hstep := PairInv_step p side op h
    have hrest := ih (stepPair p side op).1 hstep
    cases side
    · have he : outputsA p ((false, op) :: ops)
          = outputsA (stepPair p false op).1 ops := by
        simp [outputsA, runOut_cons]
      rw [he]
      have ha : (stepPair p false op).1.a = p.a := rfl
      rw [ha] at hrest
      exact hrest
    · have he : outputsA p ((true, op) :: ops)
          = (match (stepPair p true op).2 with
             | some batch => [(batch, p.a.meta.next_poll)]
             | none => [])
            ++ outputsA (stepPair p true op).1 ops := by
        simp [outputsA, runOut_cons]
      rw [he]
      have hmono : p.a.data.sent_join = true →
          (stepPair p true op).1.a.data.sent_join = true :=
        (mono_applyOp p.a p.b op h.1).2.2.1
      rcases stepA_spec p op h with ⟨hn, hsj, -⟩ | ⟨batch, hb, hcj, -, -⟩
      · rw [hn]
        show joinCount ([] ++ outputsA (stepPair p true op).1 ops)
            ≤ if p.a.data.sent_join = true then 0 else 1
        rw [joinCount_append]
        have hc : joinCount ([] : List (List Signal × Time)) = 0 := by
          simp [joinCount]
        rw [hc]
        rw [hsj] at hrest
        omega
      · rw [hb]
        show batch.countP Signal.is_join_room
              + joinCount (outputsA (stepPair p true op).1 ops)
            ≤ if p.a.data.sent_join = true then 0 else 1
        cases hsj : p.a.data.sent_join
        · cases hsj' : (stepPair p true op).1.a.data.sent_join
          · rw [if_neg (by simp [hsj, hsj'])] at hcj
            rw [hsj', if_neg (by simp)] at hrest
            norm_num
            omega
          · rw [if_pos ⟨hsj, hsj'⟩] at hcj
            rw [hsj', if_pos rfl] at hrest
            norm_num
            omega
        · have hsj' := hmono hsj
          rw [if_neg (by simp [hsj])] at hcj
          rw [hsj', if_pos rfl] at hrest
          rw [if_pos rfl]
          omega

lemma connCount_bound (ops : List (Bool × SOp)) (p : Pair) (h : PairInv p) :
    connCount (outputsA p ops) ≤ if p.a.data.read_connect = true then 0 else 1 := by
  induction ops generalizing p with
  | nil =>
    have : connCount (outputsA p []) = 0 := by simp [outputsA, runOut, connCount]
    rw [this]
    split <;> omega
  | cons o ops ih =>
    obtain ⟨side, op⟩ := o
    have hstep := PairInv_step p side op h
    have hrest := ih (stepPair p side op).1 hstep
    cases side
    · have he : outputsA p ((false, op) :: ops)
          = outputsA (stepPair p false op).1 ops := by
        simp [outputsA, runOut_cons]
      rw [he]
      have ha : (stepPair p false op).1.a = p.a := rfl
      rw [ha] at hrest
      exact hrest
    · have he : outputsA p ((true, op) :: ops)
          = (match (stepPair p true op).2 with
             | some batch => [(batch, p.a.meta.next_poll)]
             | none => [])
            ++ outputsA (stepPair p true op).1 ops := by
        simp [outputsA, runOut_cons]
      rw [he]
      have hmono : p.a.data.read_connect = true →
          (stepPair p true op).1.a.data.read_connect = true :=
        (mono_applyOp p.a p.b op h.1).2.2.2.1
      rcases stepA_spec p op h with ⟨hn, -, hrc⟩ | ⟨batch, hb, -, hcc, -⟩
      · rw [hn]
        show connCount ([] ++ outputsA (stepPair p true op).1 ops)
            ≤ if p.a.data.read_connect = true then 0 else 1
        rw [connCount_append]
        have hc : connCount ([] : List (List Signal × Time)) = 0 := by
          simp [connCount]
        rw [hc]
        rw [hrc] at hrest
        omega
      · rw [hb]
        show batch.countP Signal.is_connect_at
              + connCount (outputsA (stepPair p true op).1 ops)
            ≤ if p.a.data.read_connect = true then 0 else 1
        cases hrc : p.a.data.read_connect
        · cases hrc' : (stepPair p true op).1.a.data.read_connect
          · rw [if_neg (by simp [hrc, hrc'])] at hcc
            rw [hrc', if_neg (by simp)] at hrest
            norm_num
            omega
          · rw [if_pos ⟨hrc, hrc'⟩] at hcc
            rw [hrc', if_pos rfl] at hrest
            norm_num
            omega
        · have hrc' := hmono hrc
          rw [if_neg (by simp [hrc])] at hcc
          rw [hrc', if_pos rfl] at hrest
          rw [if_pos rfl]
          omega

lemma outputsA_good (ops : List (Bool × SOp)) (p : Pair) (h : PairInv p) :
    ∀ o ∈ outputsA p ops, GoodBatch o := by
  induction ops generalizing p with
  | nil => simp [outputsA, runOut]
  | cons o ops ih =>
    obtain ⟨side, op⟩ := o
    have hstep := PairInv_step p side op h
    cases side
    · have he : outputsA p ((false, op) :: ops)
          = outputsA (stepPair p false op).1 ops := by
        simp [outputsA, runOut_cons]
      rw [he]
      exact ih _ hstep
    · have he : outputsA p ((true, op) :: ops)
          = (match (stepPair p true op).2 with
             | some batch => [(batch, p.a.meta.next_poll)]
             | none => [])
            ++ outputsA (stepPair p true op).1 ops := by
        simp [outputsA, runOut_cons]
      rw [he]
      rcases stepA_spec p op h with ⟨hn, -, -⟩ | ⟨batch, hb, -, -, hgood⟩
      · rw [hn]
        intro o ho
        rcases List.mem_append.mp ho with ho' | ho'
        · cases ho'
        · exact ih _ hstep o ho'
      · rw [hb]
        intro o ho
        rcases List.mem_append.mp ho with ho' | ho'
        · rcases List.mem_singleton.mp ho' with rfl
          exact hgood
        · exact ih _ hstep o ho'

/-! ### Claim theorems -/

/-- C1: `try_connect(peer)` on a session with a present body behaves case by
case: if `self.connect_at` is set it changes nothing; else if
`peer.connect_at` is set that value is copied into `self.connect_at` and
`read_connect` is cleared; else if both sides sent SDP and at least one side
finished ICE, `self.connect_at` becomes `peer.next_poll + 5 s` and
`read_connect` is cleared; in every remaining case nothing changes. -/
theorem try_connect_c1 (s p : Auth) :
    (s.data.connect_at.isSome = true → s.try_connect p = s)
  ∧ (∀ t, s.data.connect_at = none → p.data.connect_at = some t →
      s.try_connect p =
        { s with modified := true,
                 data := { s.data with connect_at := some t, read_connect := false } })
  ∧ (s.data.connect_at = none → p.data.connect_at = none →
      s.data.sent_sdp = true → p.data.sent_sdp = true →
      (s.data.ice_done = true ∨ p.data.ice_done = true) →
      s.try_connect p =
        { s with modified := true,
                 data := { s.data with
                   connect_at := some (p.meta.next_poll + fromSecs CONNECT),
                   read_connect := false } })
  ∧ (s.data.connect_at = none → p.data.connect_at = none →
      (s.data.sent_sdp = false ∨ p.data.sent_sdp = false ∨
        (s.data.ice_done = false ∧ p.data.ice_done = false)) →
      s.try_connect p = s) := by
  refine ⟨?_, ?_, ?_, ?_⟩
  · intro h
    unfold Auth.try_connect
    rw [if_pos h]
  · intro t hn hp
    unfold Auth.try_connect
    rw [if_neg (by simp [hn])]
    simp only [hp]
  · intro hn hp hs hps hice
    unfold Auth.try_connect
    rw [if_neg (by simp [hn])]
    simp only [hp]
    rw [if_neg (by simp [hs, hps])]
    rw [if_neg (by rcases hice with h | h <;> simp [h])]
  · intro hn hp hcond
    unfold Auth.try_connect
    rw [if_neg (by simp [hn])]
    simp only [hp]
    split_ifs with h1 h2
    · rfl
    · rfl
    · exfalso
      simp only [not_or, not_not] at h1
      simp only [not_and, not_not] at h2
      rcases hcond with h | h | ⟨ha, hb⟩
      · rw [h1.1] at h
        cases h
      · rw [h1.2] at h
        cases h
      · rw [h2 (by simp [ha])] at hb
        cases hb

theorem try_connect_c1_witness :
    tcS1.try_connect (Auth.create "B" 0) = tcS1 ∧
    (Auth.create "A" 0).try_connect tcP2 =
      { Auth.create "A" 0 with
        modified := true,
        data := { (Auth.create "A" 0).data with
          connect_at := some (fromSecs 7), read_connect := false } } ∧
    tcS3.try_connect tcP3 =
      { tcS3 with
        modified := true,
        data := { tcS3.data with
          connect_at := some (tcP3.meta.next_poll + fromSecs CONNECT),
          read_connect := false } } ∧
    (Auth.create "A" 0).try_connect (Auth.create "B" 0) = Auth.create "A" 0 :=
  ⟨(try_connect_c1 tcS1 (Auth.create "B" 0)).1 (by decide),
   (try_connect_c1 (Auth.create "A" 0) tcP2).2.1 (fromSecs 7) (by decide) (by decide),
   (try_connect_c1 tcS3 tcP3).2.2.1 (by decide) (by decide) (by decide) (by decide)
     (Or.inl (by decide)),
   (try_connect_c1 (Auth.create "A" 0) (Auth.create "B" 0)).2.2.2 (by decide)
     (by decide) (Or.inl (by decide))⟩

/-- C3 counterexample: the claim says `send_signal` records a submitted
`JoinRoom` in the queue, but the code drops every non-client-sendable signal
(`can_send` is false for `JoinRoom`) before the tag dispatch, so the queue
stays empty. -/
theorem send_signal_c3_counterexample :
    ((Auth.create "K" 0).send_signal [Signal.JoinRoom "ROOMCD"]).data.queue = [] := by
  decide

/-- C3 (amended): `send_signal` processes signals in order; a signal whose
tag is not client-originated is dropped, including `JoinRoom` (the HTTP
layer lets `JoinRoom` through to the handler, but the core does not record
it in the queue); a `SetSDP` when `sent_sdp` is already true is dropped,
otherwise `sent_sdp` is set and the signal enqueued; an `AddCandidate` when
`ice_done` is already true is dropped; an `AddCandidate` whose first field
is empty sets `ice_done` and is still enqueued; other `AddCandidate`
signals are enqueued unchanged. -/
theorem send_signal_c3_amended (a : Auth) (rest : List Signal) :
    (∀ r, a.send_signal (Signal.JoinRoom r :: rest) = a.send_signal rest)
  ∧ (∀ t, a.send_signal (Signal.ConnectAt t :: rest) = a.send_signal rest)
  ∧ (∀ t, a.send_signal (Signal.NextPoll t :: rest) = a.send_signal rest)
  ∧ (∀ sdp, a.data.sent_sdp = true →
      a.send_signal (Signal.SetSDP sdp :: rest) = a.send_signal rest)
  ∧ (∀ sdp, a.data.sent_sdp = false →
      a.send_signal (Signal.SetSDP sdp :: rest) =
        Auth.send_signal
          { a with modified := true,
                   data := { a.data with
                               sent_sdp := true,
                               queue := a.data.queue ++ [Signal.SetSDP sdp] } } rest)
  ∧ (∀ ice, a.data.ice_done = true →
      a.send_signal (Signal.AddCandidate ice :: rest) = a.send_signal rest)
  ∧ (∀ r₂ r₃, a.data.ice_done = false →
      a.send_signal (Signal.AddCandidate ("", r₂, r₃) :: rest) =
        Auth.send_signal
          { a with modified := true,
                   data := { a.data with
                               ice_done := true,
                               queue := a.data.queue
                                 ++ [Signal.AddCandidate ("", r₂, r₃)] } } rest)
  ∧ (∀ c₁ r₂ r₃, a.data.ice_done = false → c₁ ≠ "" →
      a.send_signal (Signal.AddCandidate (c₁, r₂, r₃) :: rest) =
        Auth.send_signal
          { a with modified := true,
                   data := { a.data with
                               queue := a.data.queue
                                 ++ [Signal.AddCandidate (c₁, r₂, r₃)] } } rest) := by
  have hstep : ∀ s : Signal, a.send_signal (s :: rest) = (a.send_one s).send_signal rest :=
    fun s => rfl
  refine ⟨?_, ?_, ?_, ?_, ?_, ?_, ?_, ?_⟩
  · intro r
    rw [hstep, show a.send_one (Signal.JoinRoom r) = a from by
      simp [Auth.send_one, Signal.can_send]]
  · intro t
    rw [hstep, show a.send_one (Signal.ConnectAt t) = a from by
      simp [Auth.send_one, Signal.can_send]]
  · intro t
    rw [hstep, show a.send_one (Signal.NextPoll t) = a from by
      simp [Auth.send_one, Signal.can_send]]
  · intro sdp h
    rw [hstep, show a.send_one (Signal.SetSDP sdp) = a from by
      simp [Auth.send_one, Signal.can_send, h]]
  · intro sdp h
    rw [hstep, show a.send_one (Signal.SetSDP sdp)
        = { a with modified := true,
                   data := { a.data with
                               sent_sdp := true,
                               queue := a.data.queue ++ [Signal.SetSDP sdp] } } from by
      simp [Auth.send_one, Signal.can_send, h]]
  · intro ice h
    rw [hstep, show a.send_one (Signal.AddCandidate ice) = a from by
      simp [Auth.send_one, Signal.can_send, h]]
  · intro r₂ r₃ h
    rw [hstep, show a.send_one (Signal.AddCandidate ("", r₂, r₃))
        = { a with modified := true,
                   data := { a.data with
                               ice_done := true,
                               queue := a.data.queue
                                 ++ [Signal.AddCandidate ("", r₂, r₃)] } } from by
      simp [Auth.send_one, Signal.can_send, h]]
  · intro c₁ r₂ r₃ h hne
    rw [hstep, show a.send_one (Signal.AddCandidate (c₁, r₂, r₃))
        = { a with modified := true,
                   data := { a.data with
                               queue := a.data.queue
                                 ++ [Signal.AddCandidate (c₁, r₂, r₃)] } } from by
      simp [Auth.send_one, Signal.can_send, h, hne]]

theorem send_signal_c3_witness :
    ((Auth.create "W" 0).send_signal [Signal.JoinRoom "R"]
      = (Auth.create "W" 0).send_signal []) ∧
    ((Auth.create "W" 0).send_signal [Signal.SetSDP "x"]
      = Auth.send_signal
          { Auth.create "W" 0 with
            modified := true,
            data := { (Auth.create "W" 0).data with
                      sent_sdp := true,
                      queue := (Auth.create "W" 0).data.queue
                        ++ [Signal.SetSDP "x"] } } []) ∧
    ((Auth.create "W" 0).send_signal [Signal.AddCandidate ("", none, none)]
      = Auth.send_signal
          { Auth.create "W" 0 with
            modified := true,
            data := { (Auth.create "W" 0).data with
                      ice_done := true,
                      queue := (Auth.create "W" 0).data.queue
                        ++ [Signal.AddCandidate ("", none, none)] } } []) :=
  ⟨(send_signal_c3_amended (Auth.create "W" 0) []).1 "R",
   (send_signal_c3_amended (Auth.create "W" 0) []).2.2.2.2.1 "x" (by decide),
   (send_signal_c3_amended (Auth.create "W" 0) []).2.2.2.2.2.2.1 none none (by decide)⟩

/-- C5: for sessions with present bodies (and `usize`-range cursor and queue
length), `is_done(peer)` is true iff `connect_at` is set, both sides have
`ice_done`, and `self.read` equals the length of the peer's queue. -/
theorem is_done_c5 (s p : Auth) (h₁ : s.data.read < 2 ^ 64)
    (h₂ : p.data.queue.length < 2 ^ 64) :
    s.is_done p = true ↔
      (s.data.connect_at.isSome = true ∧ s.data.ice_done = true ∧
       p.data.ice_done = true ∧ s.data.read = p.data.queue.length) := by
  rcases hca : s.data.connect_at with _ | t
  · simp [Auth.is_done, hca]
  · cases hsi : s.data.ice_done
    · simp [Auth.is_done, hca, hsi]
    · cases hpi : p.data.ice_done
      · simp [Auth.is_done, hca, hsi, hpi]
      · simp only [Auth.is_done, hca, Option.isNone_some, Bool.false_eq_true,
          if_false, hsi, hpi, Option.isSome_some, not_true, or_self, and_true,
          true_and, false_or, if_neg, Bool.true_eq]
        split_ifs with h
        · constructor
          · intro hfalse
            cases hfalse
          · intro he
            omega
        · constructor
          · intro _
            omega
          · intro _
            rfl

/-- C9: encoding session metadata to the flat string map and decoding it
back is the identity, for whole-second timestamps at or after the epoch
(representable as `u64` seconds) and non-empty optional strings; timestamps
round-trip through their decimal-seconds encoding and an absent room or
peer is stored as `""` and decoded back to absent. -/
theorem metadata_roundtrip_c9 (m : AuthMetadata)
    (hk : NANOS ∣ m.kill_at) (hkb : m.kill_at < 2 ^ 64 * NANOS)
    (hn : NANOS ∣ m.next_poll) (hnb : m.next_poll < 2 ^ 64 * NANOS)
    (hr : ∀ s, m.room = some s → s ≠ "")
    (hp : ∀ s, m.peer = some s → s ≠ "") :
    AuthMetadata.from_map (AuthMetadata.to_map m) = some m := by
  obtain ⟨ka, np, ro, pe⟩ := m
  obtain ⟨ks, rfl⟩ := hk
  obtain ⟨ns, rfl⟩ := hn
  have hNpos : 0 < NANOS := by norm_num [NANOS]
  have hks : NANOS * ks / NANOS = ks := Nat.mul_div_cancel_left ks hNpos
  have hns : NANOS * ns / NANOS = ns := Nat.mul_div_cancel_left ns hNpos
  have hksb : ks < 2 ^ 64 := by
    rw [Nat.mul_comm (2 ^ 64) NANOS] at hkb
    exact Nat.lt_of_mul_lt_mul_left hkb
  have hnsb : ns < 2 ^ 64 := by
    rw [Nat.mul_comm (2 ^ 64) NANOS] at hnb
    exact Nat.lt_of_mul_lt_mul_left hnb
  have h1 : AuthMetadata.to_map ⟨NANOS * ks, NANOS * ns, ro, pe⟩ "kill_at"
      = some (showNat ks) := by
    simp [AuthMetadata.to_map, hks]
  have h2 : AuthMetadata.to_map ⟨NANOS * ks, NANOS * ns, ro, pe⟩ "next_poll"
      = some (showNat ns) := by
    simp [AuthMetadata.to_map, hns]
  have h3 : AuthMetadata.to_map ⟨NANOS * ks, NANOS * ns, ro, pe⟩ "room"
      = some (ro.getD "") := by
    simp [AuthMetadata.to_map]
  have h4 : AuthMetadata.to_map ⟨NANOS * ks, NANOS * ns, ro, pe⟩ "peer"
      = some (pe.getD "") := by
    simp [AuthMetadata.to_map]
  unfold AuthMetadata.from_map
  rw [h1, h2, h3, h4]
  have hfk : (some (showNat ks)).filter (fun v => v ≠ "") = some (showNat ks) := by
    simp [Option.filter, showNat_ne_empty]
  have hfn : (some (showNat ns)).filter (fun v => v ≠ "") = some (showNat ns) := by
    simp [Option.filter, showNat_ne_empty]
  rw [hfk, hfn]
  have hro : (some (ro.getD "")).filter (fun v => v ≠ "") = ro := by
    rcases ro with _ | s
    · simp [Option.filter]
    · have := hr s rfl
      simp [Option.filter, this]
  have hpe : (some (pe.getD "")).filter (fun v => v ≠ "") = pe := by
    rcases pe with _ | s
    · simp [Option.filter]
    · have := hp s rfl
      simp [Option.filter, this]
  simp [parseU64_showNat hksb, parseU64_showNat hnsb, fromSecs, Nat.mul_comm]
  exact ⟨by simpa using hro, by simpa using hpe⟩

theorem metadata_roundtrip_c9_witness :
    AuthMetadata.from_map
        (AuthMetadata.to_map ⟨fromSecs 100, fromSecs 7, some "ROOM", none⟩)
      = some ⟨fromSecs 100, fromSecs 7, some "ROOM", none⟩ :=
  metadata_roundtrip_c9 ⟨fromSecs 100, fromSecs 7, some "ROOM", none⟩
    ⟨100, by norm_num [fromSecs, NANOS]⟩ (by norm_num [fromSecs, NANOS])
    ⟨7, by norm_num [fromSecs, NANOS]⟩ (by norm_num [fromSecs, NANOS])
    (fun s hs => by cases hs; decide)
    (fun s hs => by cases hs)

/-- C6 counterexample: the claim says no key belonging to a session with
`is_alive()` true is deleted, but a dead session's `get_keys_to_kill` also
returns its recorded peer's key, and that peer can still be alive: with
`cexDead` expired and `cexAlive` alive at `now = 50 s`, the sweep deletes
`auth:B`, the alive session's own key. -/
theorem cleanup_c6_counterexample :
    cexAlive.is_alive (fromSecs 50) = true ∧
    authBucketKey cexAlive.key ∈ cleanup_deleted [cexDead, cexAlive] (fromSecs 50) := by
  constructor
  · decide
  · decide

/-- C6 (amended): after a cleanup sweep, every key returned by
`get_keys_to_kill` for any session with `is_alive()` false is deleted; and
every deleted key is returned by `get_keys_to_kill` of some session with
`is_alive()` false — so a key of an alive session is deleted exactly when
some dead session lists it (as its recorded peer or room). -/
theorem cleanup_c6_amended (pop : List Auth) (now : Time) :
    (∀ a ∈ pop, a.is_alive now = false →
       ∀ k ∈ a.get_keys_to_kill now, k ∈ cleanup_deleted pop now) ∧
    (∀ k ∈ cleanup_deleted pop now,
       ∃ a, a ∈ pop ∧ a.is_alive now = false ∧ k ∈ a.get_keys_to_kill now) := by
  constructor
  · intro a ha _ k hk
    simp only [cleanup_deleted, List.mem_flatten, List.mem_map]
    exact ⟨a.get_keys_to_kill now, ⟨a, ha, rfl⟩, hk⟩
  · intro k hk
    simp only [cleanup_deleted, List.mem_flatten, List.mem_map] at hk
    obtain ⟨l, ⟨a, ha, rfl⟩, hkl⟩ := hk
    refine ⟨a, ha, ?_, hkl⟩
    cases hal : a.is_alive now
    · rfl
    · rw [Auth.get_keys_to_kill, if_pos hal] at hkl
      cases hkl

theorem cleanup_c6_witness :
    authBucketKey cexDead.key ∈ cleanup_deleted [cexDead, cexAlive] (fromSecs 50) :=
  (cleanup_c6_amended [cexDead, cexAlive] (fromSecs 50)).1 cexDead (by decide)
    (by decide) (authBucketKey cexDead.key) (by decide)

/-- C7: joining a room whose offer slot is occupied with a differing service
tag fails without modifying room or session, and the `/poll` handler
surfaces that failure with exactly the same response (status 400, body
"Room is full.") as joining a room whose two slots are both occupied. -/
theorem join_room_c7 (room : Room) (user : Auth) (svc : String)
    (hoff : room.data.offer ≠ "") (hsvc : user.get_service = some svc)
    (hne : svc ≠ room.data.service) :
    room.join_room user = some (false, room, user)
  ∧ (∀ (st : Store) (tok code fk : String) (now : Time) (u : Auth),
      st.auths tok = some u → u.meta.peer = none → u.meta.room = none →
      u.service = some svc → st.rooms code = some room →
      poll_handler st (some tok) [Signal.JoinRoom code] now fk
        = ⟨PResponse.err "Room is full." 400, []⟩)
  ∧ (∀ (st : Store) (tok code fk : String) (now : Time) (u : Auth)
        (fullRoom : Room) (x s : String),
      st.auths tok = some u → u.meta.peer = none → u.meta.room = none →
      u.service = some s → st.rooms code = some fullRoom →
      fullRoom.data.offer ≠ "" → fullRoom.data.answer = some x →
      poll_handler st (some tok) [Signal.JoinRoom code] now fk
        = ⟨PResponse.err "Room is full." 400, []⟩) := by
  have hjoin : room.join_room user = some (false, room, user) := by
    unfold Room.join_room
    rw [hsvc]
    rcases hans : room.data.answer with _ | x
    · simp [hoff, hans, hne]
    · simp [hoff, hans]
  refine ⟨hjoin, ?_, ?_⟩
  · intro st tok code fk now u hu hpeer hroom husvc hrooms
    have hjoin' : ({ room with key := code, modified := false } : Room).join_room
        { u with key := tok, modified := false }
        = some (false, { room with key := code, modified := false },
                { u with key := tok, modified := false }) := by
      unfold Room.join_room
      show (match ({ u with key := tok, modified := false } : Auth).get_service with
            | none => _ | some service => _) = _
      rw [show ({ u with key := tok, modified := false } : Auth).get_service
          = some svc from husvc]
      rcases hans : room.data.answer with _ | x
      · simp [hoff, hans, hne]
      · simp [hoff, hans]
    simp [poll_handler, resolve_peer, Store.loadAuth, Store.loadRoom, hu, hpeer,
      hroom, hrooms, hjoin', List.find?, Signal.is_join_room, Signal.can_send]
  · intro st tok code fk now u fullRoom x s hu hpeer hroom husvc hrooms hfoff hfans
    have hjoin' : ({ fullRoom with key := code, modified := false } : Room).join_room
        { u with key := tok, modified := false }
        = some (false, { fullRoom with key := code, modified := false },
                { u with key := tok, modified := false }) := by
      unfold Room.join_room
      show (match ({ u with key := tok, modified := false } : Auth).get_service with
            | none => _ | some service => _) = _
      rw [show ({ u with key := tok, modified := false } : Auth).get_service
          = some s from husvc]
      simp [hfoff, hfans]
    simp [poll_handler, resolve_peer, Store.loadAuth, Store.loadRoom, hu, hpeer,
      hroom, hrooms, hjoin', List.find?, Signal.is_join_room, Signal.can_send]

theorem join_room_c7_witness :
    c7Room.join_room c7User = some (false, c7Room, c7User) ∧
    poll_handler c7Store (some "T") [Signal.JoinRoom "R"] 0 "K"
      = ⟨PResponse.err "Room is full." 400, []⟩ ∧
    poll_handler c7Store (some "T") [Signal.JoinRoom "F"] 0 "K"
      = ⟨PResponse.err "Room is full." 400, []⟩ :=
  ⟨(join_room_c7 c7Room c7User "svc2" (by decide) (by decide) (by decide)).1,
   (join_room_c7 c7Room c7User "svc2" (by decide) (by decide) (by decide)).2.1
     c7Store "T" "R" "K" 0 c7User (by decide) (by decide) (by decide) (by decide)
     (by decide),
   (join_room_c7 c7Room c7User "svc2" (by decide) (by decide) (by decide)).2.2
     c7Store "T" "F" "K" 0 c7User c7FullRoom "Y" "svc2" (by decide) (by decide)
     (by decide) (by decide) (by decide) (by decide) (by decide)⟩

lemma roomKey_ne_authKey (x y : String) : roomBucketKey x ≠ authBucketKey y := by
  intro h
  have hd : ("room:" ++ x).data = ("auth:" ++ y).data := congrArg String.data h
  rw [String.data_append, String.data_append] at hd
  have h1 : "room:".data = ['r', 'o', 'o', 'm', ':'] := rfl
  have h2 : "auth:".data = ['a', 'u', 't', 'h', ':'] := rfl
  rw [h1, h2] at hd
  simp at hd

lemma resolve_peer_error_puts (st : Store) (user : Auth) (signals : List Signal)
    (fk : String) (e : PollOutcome)
    (h : resolve_peer st user signals fk = .error e) : e.puts = [] := by
  unfold resolve_peer at h
  rcases hp : user.meta.peer with _ | ptok <;> simp only [hp] at h
  · rcases hr : user.meta.room with _ | code <;> simp only [hr] at h
    · rcases hf : signals.find? Signal.is_join_room with _ | s <;> simp only [hf] at h
      · rcases hj : (Room.create fk).join_room user with _ | res <;>
          simp only [hj] at h
        · cases h
          rfl
        · obtain ⟨b, r₂, u₂⟩ := res
          cases b
          · cases h
            rfl
          · cases h
      · cases s <;> simp only at h
        case JoinRoom code =>
          rcases hlr : st.loadRoom code with _ | rm <;> simp only [hlr] at h
          · cases h
            rfl
          · rcases hj : rm.join_room user with _ | res <;> simp only [hj] at h
            · cases h
              rfl
            · obtain ⟨b, r₂, u₂⟩ := res
              cases b
              · cases h
                rfl
              · cases h
        all_goals (cases h; rfl)
    · rcases hlr : st.loadRoom code with _ | rm <;> simp only [hlr] at h
      · cases h
        rfl
      · cases h
  · cases h

lemma resolve_peer_ok_puts (st : Store) (user : Auth) (signals : List Signal)
    (fk : String) (pt : Option String) (u₂ : Auth) (puts : List String)
    (h : resolve_peer st user signals fk = .ok (pt, u₂, puts)) :
    ∀ k ∈ puts, ∃ c, k = roomBucketKey c := by
  have hif : ∀ (rm : Room) (k : String),
      k ∈ (if rm.modified = true then [roomBucketKey rm.key] else []) →
        ∃ c, k = roomBucketKey c := by
    intro rm k hk
    split at hk
    · rcases List.mem_singleton.mp hk with rfl
      exact ⟨rm.key, rfl⟩
    · cases hk
  unfold resolve_peer at h
  rcases hp : user.meta.peer with _ | ptok <;> simp only [hp] at h
  · rcases hr : user.meta.room with _ | code <;> simp only [hr] at h
    · rcases hf : signals.find? Signal.is_join_room with _ | s <;> simp only [hf] at h
      · rcases hj : (Room.create fk).join_room user with _ | res <;>
          simp only [hj] at h
        · cases h
        · obtain ⟨b, r₂, u₃⟩ := res
          cases b
          · cases h
          · cases h
            exact fun k hk => hif _ k hk
      · cases s <;> simp only at h
        case JoinRoom code =>
          rcases hlr : st.loadRoom code with _ | rm <;> simp only [hlr] at h
          · cases h
          · rcases hj : rm.join_room user with _ | res <;> simp only [hj] at h
            · cases h
            · obtain ⟨b, r₂, u₃⟩ := res
              cases b
              · cases h
              · cases h
                exact fun k hk => hif _ k hk
        all_goals cases h
    · rcases hlr : st.loadRoom code with _ | rm <;> simp only [hlr] at h
      · cases h
      · cases h
        exact fun k hk => hif _ k hk
  · cases h
    intro k hk
    cases hk

/-- C10: whenever the `/poll` handler returns an error response, no `put` is
issued for the caller's session key — every key written on an error path is
a room key, so the persisted session state is unchanged. -/
theorem poll_handler_c10 (st : Store) (tok : String) (signals : List Signal)
    (now : Time) (fk : String) (msg : String) (code : Nat)
    (h : (poll_handler st (some tok) signals now fk).response
          = PResponse.err msg code) :
    authBucketKey tok ∉ (poll_handler st (some tok) signals now fk).puts := by
  have hPH : poll_handler st (some tok) signals now fk
      = if signals.any (fun s => ¬s.is_join_room ∧ ¬s.can_send) then
          ⟨.err "Invalid signals: can't send." 400, []⟩
        else
          match st.loadAuth tok with
          | none => ⟨.err "Invalid token." 403, []⟩
          | some user =>
            match resolve_peer st user signals fk with
            | .error e => e
            | .ok (peerTok, user, puts) =>
              match peerTok.bind st.loadAuth with
              | some p =>
                if user.is_done p then ⟨.err "Connection done." 400, puts⟩
                else finish_poll user (some p) signals now puts
              | none => finish_poll user none signals now puts := rfl
  rw [hPH] at h ⊢
  cases hv : signals.any (fun s => ¬s.is_join_room ∧ ¬s.can_send)
  · rw [hv] at h
    rw [if_neg (by simp)] at h ⊢
    rcases hl : st.loadAuth tok with _ | u <;> simp only [hl] at h ⊢
    · simp
    · rcases hres : resolve_peer st u signals fk with e | res <;>
        simp only [hres] at h ⊢
      · rw [resolve_peer_error_puts st u signals fk e hres]
        simp
      · obtain ⟨pt, u₂, puts⟩ := res
        have hputs := resolve_peer_ok_puts st u signals fk pt u₂ puts hres
        rcases hpl : pt.bind st.loadAuth with _ | pr <;> simp only [hpl] at h ⊢
        · unfold finish_poll at h
          cases h
        · cases hd : u₂.is_done pr
          · rw [if_neg (by simp [hd])] at h ⊢
            unfold finish_poll at h
            cases h
          · rw [if_pos (by simp [hd])] at h ⊢
            intro hmem
            obtain ⟨c, hc⟩ := hputs _ hmem
            exact roomKey_ne_authKey c tok hc.symm
  · rw [hv] at h
    rw [if_pos rfl] at h ⊢
    simp

theorem poll_handler_c10_witness :
    authBucketKey "T"
      ∉ (poll_handler ⟨fun _ => none, fun _ => none⟩ (some "T") [] 0 "R").puts :=
  poll_handler_c10 ⟨fun _ => none, fun _ => none⟩ "T" [] 0 "R" "Invalid token." 403
    (by decide)

lemma pull_signals_read_some (x p : Auth) :
    (x.pull_signals (some p)).1.data.read = p.data.queue.length := by
  have h : x.pull_signals (some p)
      = pull_emit (x.read_signals p).1 (x.read_signals p).2 :=
    pull_signals_eq x (some p)
  rw [h, pull_emit_eq]
  rfl

/-- C2: across every operation sequence on a session pair from creation
onward, side `A`'s `pull_signals` batches contain at most one `JoinRoom` and
at most one `ConnectAt` in total, and every batch is a `NextPoll`-free list
followed by exactly one final `NextPoll` carrying the session's `next_poll`
at the call. -/
theorem pull_signals_c2 (ka kb : String) (ta tb : Time)
    (ops : List (Bool × SOp)) :
    joinCount (outputsA (Pair.init ka ta kb tb) ops) ≤ 1 ∧
    connCount (outputsA (Pair.init ka ta kb tb) ops) ≤ 1 ∧
    ∀ o ∈ outputsA (Pair.init ka ta kb tb) ops,
      ∃ l', o.1 = l' ++ [Signal.NextPoll o.2] ∧
        l'.countP Signal.is_next_poll = 0 := by
  have hinv := PairInv_init ka ta kb tb
  refine ⟨le_trans (joinCount_bound ops _ hinv) ?_,
    le_trans (connCount_bound ops _ hinv) ?_,
    outputsA_good ops _ hinv⟩
  · split <;> omega
  · split <;> omega

theorem pull_signals_c2_witness :
    joinCount (outputsA (Pair.init "A" 0 "B" 0) [(true, SOp.pullNone)]) ≤ 1 ∧
    (∃ l', ([Signal.NextPoll (fromSecs 1)] : List Signal)
        = l' ++ [Signal.NextPoll (fromSecs 1)] ∧
      l'.countP Signal.is_next_poll = 0) :=
  ⟨(pull_signals_c2 "A" "B" 0 0 [(true, SOp.pullNone)]).1,
   (pull_signals_c2 "A" "B" 0 0 [(true, SOp.pullNone)]).2.2
     ([Signal.NextPoll (fromSecs 1)], fromSecs 1) (by decide)⟩

/-- C4: on every state reachable from a fresh session pair, the booleans
`sent_sdp`, `ice_done`, `sent_join` and `read_connect` of a session are
monotonic under any further operation sequence, and `connect_at`, once set,
is never cleared or changed. -/
theorem monotone_flags_c4 (ka kb : String) (ta tb : Time)
    (ops₁ ops₂ : List (Bool × SOp)) :
    ((runPair (Pair.init ka ta kb tb) ops₁).a.data.sent_sdp = true →
      (runPair (runPair (Pair.init ka ta kb tb) ops₁) ops₂).a.data.sent_sdp = true) ∧
    ((runPair (Pair.init ka ta kb tb) ops₁).a.data.ice_done = true →
      (runPair (runPair (Pair.init ka ta kb tb) ops₁) ops₂).a.data.ice_done = true) ∧
    ((runPair (Pair.init ka ta kb tb) ops₁).a.data.sent_join = true →
      (runPair (runPair (Pair.init ka ta kb tb) ops₁) ops₂).a.data.sent_join = true) ∧
    ((runPair (Pair.init ka ta kb tb) ops₁).a.data.read_connect = true →
      (runPair (runPair (Pair.init ka ta kb tb) ops₁) ops₂).a.data.read_connect = true) ∧
    (∀ t, (runPair (Pair.init ka ta kb tb) ops₁).a.data.connect_at = some t →
      (runPair (runPair (Pair.init ka ta kb tb) ops₁) ops₂).a.data.connect_at = some t) :=
  mono_runOut ops₂ (runPair (Pair.init ka ta kb tb) ops₁)
    (PairInv_runOut ops₁ (Pair.init ka ta kb tb) (PairInv_init ka ta kb tb))

theorem monotone_flags_c4_witness :
    (runPair (runPair (Pair.init "A" 0 "B" 0) c4Ops)
        [(true, SOp.doPoll 123), (false, SOp.pullPeer)]).a.data.sent_sdp = true ∧
    (runPair (runPair (Pair.init "A" 0 "B" 0) c4Ops)
        [(true, SOp.doPoll 123), (false, SOp.pullPeer)]).a.data.ice_done = true ∧
    (runPair (runPair (Pair.init "A" 0 "B" 0) c4Ops)
        [(true, SOp.doPoll 123), (false, SOp.pullPeer)]).a.data.sent_join = true ∧
    (runPair (runPair (Pair.init "A" 0 "B" 0) c4Ops)
        [(true, SOp.doPoll 123), (false, SOp.pullPeer)]).a.data.read_connect = true ∧
    (runPair (runPair (Pair.init "A" 0 "B" 0) c4Ops)
        [(true, SOp.doPoll 123), (false, SOp.pullPeer)]).a.data.connect_at
      = some (fromSecs 6) :=
  ⟨(monotone_flags_c4 "A" "B" 0 0 c4Ops [(true, SOp.doPoll 123), (false, SOp.pullPeer)]).1
     (by decide),
   (monotone_flags_c4 "A" "B" 0 0 c4Ops [(true, SOp.doPoll 123), (false, SOp.pullPeer)]).2.1
     (by decide),
   (monotone_flags_c4 "A" "B" 0 0 c4Ops [(true, SOp.doPoll 123), (false, SOp.pullPeer)]).2.2.1
     (by decide),
   (monotone_flags_c4 "A" "B" 0 0 c4Ops [(true, SOp.doPoll 123), (false, SOp.pullPeer)]).2.2.2.1
     (by decide),
   (monotone_flags_c4 "A" "B" 0 0 c4Ops [(true, SOp.doPoll 123), (false, SOp.pullPeer)]).2.2.2.2
     (fromSecs 6) (by decide)⟩

/-- C8: on every pair trace from creation, a session's `read` cursor never
decreases under any further operations, `read` is bounded by the peer's
queue length at inspection time, and immediately after `pull_signals` with
the peer present `read` equals the observed peer queue length. -/
theorem read_cursor_c8 (ka kb : String) (ta tb : Time)
    (ops₁ ops₂ : List (Bool × SOp)) :
    (runPair (Pair.init ka ta kb tb) ops₁).a.data.read
        ≤ (runPair (runPair (Pair.init ka ta kb tb) ops₁) ops₂).a.data.read ∧
    (runPair (Pair.init ka ta kb tb) ops₁).a.data.read
        ≤ (runPair (Pair.init ka ta kb tb) ops₁).b.data.queue.length ∧
    ((runPair (Pair.init ka ta kb tb) ops₁).a.pull_signals
        (some (runPair (Pair.init ka ta kb tb) ops₁).b)).1.data.read
      = (runPair (Pair.init ka ta kb tb) ops₁).b.data.queue.length := by
  have hinv := PairInv_runOut ops₁ (Pair.init ka ta kb tb) (PairInv_init ka ta kb tb)
  exact ⟨read_mono_runOut ops₂ _ hinv, hinv.2.2.1, pull_signals_read_some _ _⟩

theorem is_done_c5_witness :
    ({ Auth.create "A" 0 with
       data := { AuthData.default with connect_at := some 0, ice_done := true } } : Auth).is_done
      { Auth.create "B" 0 with
        data := { AuthData.default with ice_done := true } } = true :=
  (is_done_c5
      { Auth.create "A" 0 with
        data := { AuthData.default with connect_at := some 0, ice_done := true } }
      { Auth.create "B" 0 with
        data := { AuthData.default with ice_done := true } }
      (by decide) (by decide)).mpr (by decide)
